import Mathlib

/-!
Verification development for the AIQC data-preparation and training-queue core.

The repository's checked-in sources are documentation notebooks that declare and
exercise the core API (`Pipeline`, `Input`, `Target`, `Stratifier`, `Experiment`,
`Architecture`, `Trainer`, `run_jobs`); the implementation modules themselves
(`aiqc.orm`, `aiqc.mlops`) are not part of the tree. The definitions below are
therefore modelled from the specification's contracts (stratified splitting,
leakage-free encoder fitting, hyperparameter expansion, and the failure-tolerant
job queue), and the theorems settle the specification's claims against this model.
-/

namespace AIQC

/-- Modelled from the spec: a split proportion in `[0,1)` (`size_test`,
`size_validation`). The implementation module holding the `Stratifier` wrapper is
missing from the tree, so proportions are represented exactly as a fraction of
naturals rather than a float. -/
structure Proportion where
  num : ℕ
  den : ℕ
deriving DecidableEq

/-- Number of samples a proportion selects out of `n`, by floor division. -/
def Proportion.count (p : Proportion) (n : ℕ) : ℕ :=
  p.num * n / p.den

/-- Validity of a proportion: a genuine fraction in `[0,1)`. -/
def Proportion.valid (p : Proportion) : Prop :=
  0 < p.den ∧ p.num < p.den

instance (p : Proportion) : Decidable p.valid := by
  unfold Proportion.valid
  infer_instance

/-- Modelled from the spec: the `Stratifier` configuration
`(size_test, size_validation, fold_count)` plus the determinism seed. -/
structure Stratifier where
  sizeTest : Proportion
  sizeValidation : Proportion
  foldCount : Option ℕ
  seed : ℕ
deriving DecidableEq

/-- Modelled from the spec: a `Splitset`, the materialized output of one
Stratifier run, mapping split names to sample-index lists. -/
structure Splitset where
  test : List ℕ
  validation : List ℕ
  train : List ℕ
deriving DecidableEq

/-- Deterministic sample ordering used by the stratifier: a seed-dependent
rotation of the index range (a permutation of `0, ..., n-1`). -/
def sampleOrder (seed n : ℕ) : List ℕ :=
  (List.range n).rotate seed

/-- Modelled from the spec: partition the `n` sample indices into
test / validation / train by the requested proportions, deterministically in
the seed. Test and validation are carved off first; the train split is the
remainder. -/
def makeSplitset (st : Stratifier) (n : ℕ) : Splitset :=
  let ord := sampleOrder st.seed n
  let cT := st.sizeTest.count n
  let cV := st.sizeValidation.count n
  { test := ord.take cT
  , validation := (ord.drop cT).take cV
  , train := (ord.drop cT).drop cV }

/-- Size of the evaluation slice of fold `i` when `t` train samples are carved
into `k` folds: the remainder `t % k` is distributed across the first folds,
one extra sample each. -/
def foldSize (t k i : ℕ) : ℕ :=
  t / k + if i < t % k then 1 else 0

/-- Offset of fold `i`'s evaluation slice inside the train index list. -/
def foldStart (t k i : ℕ) : ℕ :=
  i * (t / k) + min i (t % k)

/-- Modelled from the spec: the fold-evaluation index list of fold `i`, a
contiguous slice of the train split's index list. -/
def foldEval (train : List ℕ) (k i : ℕ) : List ℕ :=
  (train.drop (foldStart train.length k i)).take (foldSize train.length k i)

/-- Modelled from the spec: the fold-train index list of fold `i`, the train
split's indices with fold `i`'s evaluation slice removed. -/
def foldTrain (train : List ℕ) (k i : ℕ) : List ℕ :=
  train.take (foldStart train.length k i) ++
    train.drop (foldStart train.length k i + foldSize train.length k i)

/-- Modelled from the spec: the Foldset, one `(fold-train, fold-evaluation)`
pair per fold, all carved from the train split only. -/
def makeFolds (train : List ℕ) (k : ℕ) : List (List ℕ × List ℕ) :=
  (List.range k).map (fun i => (foldTrain train k i, foldEval train k i))

/-- Modelled from the spec: a column of a Dataset, carrying its name and dtype. -/
structure Column where
  name : String
  dtype : String
deriving DecidableEq

/-- Modelled from the spec: an immutable logical table identified by id, with
column schema and rows of numeric values. -/
structure Dataset where
  id : ℕ
  columns : List Column
  rows : List (List ℤ)
deriving DecidableEq

/-- Modelled from the spec: library-specific encoder options that the
orchestration may coerce for downstream compatibility. -/
structure EncoderOptions where
  sparse : Bool
  copy : Bool
deriving DecidableEq

/-- Modelled from the spec: an Encoder Step declaration, scoped to a
column/dtype filter (`Input.Encoder(sklearn_preprocess, dtypes, columns)`). -/
structure EncoderSpec where
  options : EncoderOptions
  dtypes : List String
  columns : List String
deriving DecidableEq

/-- Columns of a schema an encoder step applies to: the intersection of the
step's column/dtype filter with the schema. -/
def matchedColumns (cols : List Column) (e : EncoderSpec) : List Column :=
  cols.filter (fun c => decide (c.dtype ∈ e.dtypes) || decide (c.name ∈ e.columns))

/-- Modelled from the spec: an `Input` declaration, a column subset of a
Dataset (mutually exclusive include/exclude lists) plus its encoder steps. -/
structure Input where
  dataset : Dataset
  includeCols : Option (List String)
  excludeCols : Option (List String)
  encoders : List EncoderSpec
deriving DecidableEq

/-- Modelled from the spec: a `Target` declaration, one column of a Dataset
with its own encoder. -/
structure Target where
  dataset : Dataset
  column : String
  encoder : EncoderOptions
deriving DecidableEq

/-- Modelled from the spec: when an `Input` and the `Target` reference the same
Dataset, the include/exclude lists are automatically adjusted to exclude
`Target.column`. -/
def adjustForTarget (inp : Input) (tgt : Target) : Input :=
  if inp.dataset.id = tgt.dataset.id then
    match inp.includeCols with
    | some incl => { inp with includeCols := some (incl.filter (fun s => s != tgt.column)) }
    | none =>
      match inp.excludeCols with
      | some excl => { inp with excludeCols := some (tgt.column :: excl) }
      | none => { inp with excludeCols := some [tgt.column] }
  else inp

/-- Feature columns selected by an include/exclude declaration. -/
def featureColumns (inp : Input) : List Column :=
  match inp.includeCols with
  | some incl => inp.dataset.columns.filter (fun c => decide (c.name ∈ incl))
  | none =>
    match inp.excludeCols with
    | some excl => inp.dataset.columns.filter (fun c => decide (c.name ∉ excl))
    | none => inp.dataset.columns

/-- Indices (within the dataset schema) of the input's feature columns, after
the automatic target-column adjustment. -/
def featureColumnIdxs (inp : Input) (tgt : Target) : List ℕ :=
  let adj := adjustForTarget inp tgt
  let names := (featureColumns adj).map Column.name
  (List.range inp.dataset.columns.length).filter (fun i =>
    match inp.dataset.columns[i]? with
    | some c => decide (c.name ∈ names)
    | none => false)

/-- Projection of one row onto a set of column indices. -/
def projectRow (colIdxs : List ℕ) (r : List ℤ) : List ℤ :=
  colIdxs.filterMap (fun i => r[i]?)

/-- Feature rows of a pipeline: the input's rows restricted to its (adjusted)
feature columns. -/
def featureRows (inp : Input) (tgt : Target) : List (List ℤ) :=
  inp.dataset.rows.map (projectRow (featureColumnIdxs inp tgt))

/-- Modelled from the spec: the label values of the target column, used for
stratification bucket checks. -/
def classLabels (t : Target) : List ℤ :=
  let i := t.dataset.columns.findIdx (fun c => c.name == t.column)
  t.dataset.rows.filterMap (fun r => r[i]?)

/-- Modelled from the spec: a full Pipeline configuration
`Pipeline(Input(...), Target(...), Stratifier(...))`. -/
structure PipelineCfg where
  input : Input
  target : Target
  stratifier : Stratifier
deriving DecidableEq

/-- Modelled from the spec: the error taxonomy. Configuration errors are raised
synchronously at Pipeline-build time; the others belong to later phases. -/
inductive PipelineError where
  | configurationError (msg : String)
  | leakageGuardViolation (msg : String)
  | cacheMiss (msg : String)
deriving DecidableEq

/-- Sample count of a pipeline: one sample per dataset row. -/
def sampleCount (cfg : PipelineCfg) : ℕ :=
  (featureRows cfg.input cfg.target).length

/-- The index partition a pipeline's stratifier produces. -/
def pipelineSplits (cfg : PipelineCfg) : Splitset :=
  makeSplitset cfg.stratifier (sampleCount cfg)

/-- Number of train samples the stratifier leaves for fold carving. -/
def trainLen (cfg : PipelineCfg) : ℕ :=
  (pipelineSplits cfg).train.length

/-- Check: include and exclude column lists are mutually exclusive. -/
def badIncludeExclude (cfg : PipelineCfg) : Bool :=
  cfg.input.includeCols.isSome && cfg.input.excludeCols.isSome

/-- Check: some encoder step's column/dtype filter matches no columns. -/
def badEncoderFilter (cfg : PipelineCfg) : Bool :=
  cfg.input.encoders.any (fun e => (matchedColumns cfg.input.dataset.columns e).isEmpty)

/-- Check: a requested nonzero proportion selects no samples, or the train
split would be left empty. -/
def badEmptySplit (cfg : PipelineCfg) : Bool :=
  let n := sampleCount cfg
  (cfg.stratifier.sizeTest.num != 0 && cfg.stratifier.sizeTest.count n == 0) ||
  (cfg.stratifier.sizeValidation.num != 0 && cfg.stratifier.sizeValidation.count n == 0) ||
  (trainLen cfg == 0)

/-- Check: the fold count exceeds the number of train samples. -/
def badFoldCount (cfg : PipelineCfg) : Bool :=
  match cfg.stratifier.foldCount with
  | none => false
  | some k => decide (trainLen cfg < k)

/-- Check: when folds are requested, some stratification bucket (label class)
holds fewer than 2 samples. -/
def badBucket (cfg : PipelineCfg) : Bool :=
  match cfg.stratifier.foldCount with
  | none => false
  | some _ =>
    (classLabels cfg.target).dedup.any (fun v => decide ((classLabels cfg.target).count v < 2))

/-- Modelled from the spec: synchronous Pipeline-build-time validation. Every
violated precondition surfaces as a `configurationError` before any data
materialization. -/
def validatePipeline (cfg : PipelineCfg) : Except PipelineError Unit :=
  if badIncludeExclude cfg then
    .error (.configurationError "include_columns and exclude_columns are mutually exclusive")
  else if badEncoderFilter cfg then
    .error (.configurationError "an encoder filter matched no columns")
  else if badEmptySplit cfg then
    .error (.configurationError "requested proportions would produce an empty split")
  else if badFoldCount cfg then
    .error (.configurationError "fold_count exceeds the number of train samples")
  else if badBucket cfg then
    .error (.configurationError "a stratification bucket holds fewer than 2 samples")
  else .ok ()

/-- Rows of a dataset gathered at a list of sample indices. -/
def gatherRows (rows : List (List ℤ)) (idxs : List ℕ) : List (List ℤ) :=
  idxs.filterMap (fun i => rows[i]?)

/-- Modelled from the spec: the designated fit-source partition of an encoder
step: the fold-train indices when running inside a fold, the train split's
indices otherwise. Validation, test and fold-evaluation indices are never part
of it. -/
def fitSourceIndices (ss : Splitset) (foldPair : Option (List ℕ × List ℕ)) : List ℕ :=
  match foldPair with
  | some fp => fp.1
  | none => ss.train

/-- Modelled from the spec: fitting one encoder step. The fitted parameters are
computed from the fit-source partition's rows only. -/
def fitEncoderStep {P : Type} (fit : List (List ℤ) → P) (rows : List (List ℤ))
    (ss : Splitset) (foldPair : Option (List ℕ × List ℕ)) : P :=
  fit (gatherRows rows (fitSourceIndices ss foldPair))

/-- Modelled from the spec: coercion of library-specific encoder options for
downstream compatibility. Sparse output is forced dense and in-place copy is
disabled, each logged as an informational notice; the encoder is still applied. -/
def coerceOptions (o : EncoderOptions) : EncoderOptions × List String :=
  let notices :=
    (if o.sparse then
      ["Info - System overriding user input to set sklearn_preprocess.sparse=False."]
     else []) ++
    (if o.copy then
      ["Info - System overriding user input to set sklearn_preprocess.copy=False."]
     else [])
  ({ sparse := false, copy := false }, notices)

/-- A prepared encoder step: coerced options plus its matched columns. -/
structure PreparedEncoder where
  options : EncoderOptions
  matched : List Column
deriving DecidableEq

/-- Modelled from the spec: setting up one encoder step against a schema. An
empty filter intersection is a configuration error; incompatible options are
coerced with an informational notice rather than an error. -/
def setupEncoder (cols : List Column) (e : EncoderSpec) :
    Except PipelineError (PreparedEncoder × List String) :=
  let m := matchedColumns cols e
  if m.isEmpty then
    .error (.configurationError "an encoder filter matched no columns")
  else
    let oc := coerceOptions e.options
    .ok ({ options := oc.1, matched := m }, oc.2)

/-- Warning raised when the train sample count is not evenly divisible by the
fold count; the condition is surfaced as a warning, not an error. -/
def foldWarnings (t k : ℕ) : List String :=
  if t % k == 0 then []
  else ["Warning - The number of samples in your training Split is not evenly divisible by the fold_count you specified."]

/-- Modelled from the spec: the cached output of `Pipeline.materialize`: the
Splitset, the Foldset, surfaced warnings, the train-fit encoder parameters and
the per-split (and per-fold) encoded tensors. -/
structure Materialized (P : Type) where
  splits : Splitset
  folds : List (List ℕ × List ℕ)
  warnings : List String
  trainParams : P
  encodedTrain : List (List ℤ)
  encodedValidation : List (List ℤ)
  encodedTest : List (List ℤ)
  foldTensors : List (P × List (List ℤ) × List (List ℤ))

/-- Modelled from the spec: `Pipeline.materialize`. Runs the Stratifier first,
fits encoders on the train partition only (fold-train inside a fold), applies
them to every split, and caches the resulting tensors. -/
def materialize {P : Type} (fit : List (List ℤ) → P) (transform : P → List ℤ → List ℤ)
    (cfg : PipelineCfg) : Materialized P :=
  let rows := featureRows cfg.input cfg.target
  let ss := pipelineSplits cfg
  let folds := match cfg.stratifier.foldCount with
    | none => []
    | some k => makeFolds ss.train k
  let w := match cfg.stratifier.foldCount with
    | none => []
    | some k => foldWarnings ss.train.length k
  let p := fit (gatherRows rows ss.train)
  { splits := ss
  , folds := folds
  , warnings := w
  , trainParams := p
  , encodedTrain := (gatherRows rows ss.train).map (transform p)
  , encodedValidation := (gatherRows rows ss.validation).map (transform p)
  , encodedTest := (gatherRows rows ss.test).map (transform p)
  , foldTensors := folds.map (fun fp =>
      let pf := fit (gatherRows rows fp.1)
      (pf, (gatherRows rows fp.1).map (transform pf), (gatherRows rows fp.2).map (transform pf))) }

/-- Modelled from the spec: Pipeline build = synchronous validation, then
materialization. A configuration error halts the build before any data work. -/
def buildPipeline {P : Type} (fit : List (List ℤ) → P) (transform : P → List ℤ → List ℤ)
    (cfg : PipelineCfg) : Except PipelineError (Materialized P) :=
  match validatePipeline cfg with
  | .error e => .error e
  | .ok _ => .ok (materialize fit transform cfg)

/-- Modelled from the spec: the hyperparameter cross-product. Each parameter
maps to its candidate list; a combination assigns one value per parameter. -/
def hpCombos {V : Type} : List (String × List V) → List (List (String × V))
  | [] => [[]]
  | (nm, vs) :: rest =>
    vs.flatMap (fun v => (hpCombos rest).map (fun c => (nm, v) :: c))

/-- Modelled from the spec: sampling `search_count` combinations without
replacement, deterministically in the seed (a rotation is a permutation). -/
def sampleCombos {α : Type} (seed k : ℕ) (l : List α) : List α :=
  (l.rotate seed).take k

/-- Modelled from the spec: a Job identity, `(hyperparamcombo, fold_index_or_none,
repeat_index)`. -/
structure Job where
  comboIdx : ℕ
  foldIdx : Option ℕ
  repeatIdx : ℕ
deriving DecidableEq

/-- Fold indices a queue iterates over: one `none` entry when no
cross-validation is configured. -/
def foldIdxList : Option ℕ → List (Option ℕ)
  | none => [none]
  | some k => (List.range k).map some

/-- Modelled from the spec: Queue enumeration in a fixed, reproducible nested
order, combos outer, folds middle, repeats inner. -/
def enumerateJobs (comboCount : ℕ) (foldCount : Option ℕ) (repeatCount : ℕ) : List Job :=
  (List.range comboCount).flatMap (fun c =>
    (foldIdxList foldCount).flatMap (fun f =>
      (List.range repeatCount).map (fun r => { comboIdx := c, foldIdx := f, repeatIdx := r })))

/-- Modelled from the spec: a Queue configuration: the declared hyperparameter
space plus fold and repeat counts. -/
structure QueueCfg where
  space : List (String × List ℤ)
  foldCount : Option ℕ
  repeatCount : ℕ
deriving DecidableEq

/-- The ordered Job list of a Queue. -/
def queueJobs (q : QueueCfg) : List Job :=
  enumerateJobs (hpCombos q.space).length q.foldCount q.repeatCount

/-- Modelled from the spec: the terminal outcome of one Job: succeeded with a
metric, or failed with its captured error. -/
inductive JobOutcome where
  | succeeded (metric : ℤ)
  | failed (err : String)
deriving DecidableEq

/-- Whether an outcome is a failure. -/
def outcomeFailed : JobOutcome → Bool
  | .succeeded _ => false
  | .failed _ => true

/-- Whether a Job's user-supplied callable chain raises. -/
def callableFails (call : Job → Except String ℤ) (j : Job) : Bool :=
  match call j with
  | .ok _ => false
  | .error _ => true

/-- Modelled from the spec: running one Job. Any exception raised by the
user-supplied build/train/predict callable chain is caught and recorded against
that Job as a failure; it never propagates. -/
def runJob (call : Job → Except String ℤ) (j : Job) : JobOutcome :=
  match call j with
  | .ok m => .succeeded m
  | .error e => .failed e

/-- Modelled from the spec: `run_jobs`. Every Job runs; the result is a full
per-Job status report, one entry per enumerated Job, never an exception. -/
def runJobs (call : Job → Except String ℤ) (jobs : List Job) : List (Job × JobOutcome) :=
  jobs.map (fun j => (j, runJob call j))

/-- Example dataset used to evaluate the model on concrete inputs: two columns,
a feature column `x` and a label column `y`, seven samples. -/
def exDataset : Dataset :=
  { id := 1
  , columns := [{ name := "x", dtype := "int64" }, { name := "y", dtype := "int64" }]
  , rows := [[0, 0], [1, 0], [2, 0], [3, 0], [4, 0], [5, 0], [6, 0]] }

/-- Example pipeline configuration: input and target share `exDataset`, no
holdout proportions, two folds. -/
def exPipeline : PipelineCfg :=
  { input := { dataset := exDataset, includeCols := none, excludeCols := none, encoders := [] }
  , target := { dataset := exDataset, column := "y", encoder := { sparse := false, copy := false } }
  , stratifier :=
    { sizeTest := { num := 0, den := 1 }
    , sizeValidation := { num := 0, den := 1 }
    , foldCount := some 2
    , seed := 0 } }

/-- Example misconfigured pipeline: include and exclude lists both given. -/
def exBadPipeline : PipelineCfg :=
  { input := { dataset := exDataset, includeCols := some ["x"], excludeCols := some ["y"]
             , encoders := [] }
  , target := exPipeline.target
  , stratifier := exPipeline.stratifier }

/-- Example queue of eight jobs: four combos, no folds, two repeats. -/
def exJobs : List Job :=
  enumerateJobs 4 none 2

/-- Example user callable chain that raises on exactly one of the eight
example jobs. -/
def exCallable (j : Job) : Except String ℤ :=
  if j.comboIdx = 2 ∧ j.repeatIdx = 1 then .error "build callable raised" else .ok 0

theorem sampleOrder_perm (seed n : ℕ) : List.Perm (sampleOrder seed n) (List.range n) :=
  List.rotate_perm _ _

theorem sampleOrder_nodup (seed n : ℕ) : (sampleOrder seed n).Nodup :=
  ((List.rotate_perm _ _).nodup_iff).mpr (List.nodup_range n)

theorem makeSplitset_append (st : Stratifier) (n : ℕ) :
    (makeSplitset st n).test ++ (makeSplitset st n).validation ++ (makeSplitset st n).train =
      sampleOrder st.seed n := by
  simp only [makeSplitset, List.append_assoc, List.take_append_drop]

theorem makeSplitset_nodup_append (st : Stratifier) (n : ℕ) :
    ((makeSplitset st n).test ++ (makeSplitset st n).validation ++ (makeSplitset st n).train).Nodup := by
  rw [makeSplitset_append]
  exact sampleOrder_nodup st.seed n

theorem makeSplitset_disjoint (st : Stratifier) (n : ℕ) :
    ((makeSplitset st n).test.Disjoint (makeSplitset st n).validation ∧
      (makeSplitset st n).test.Disjoint (makeSplitset st n).train) ∧
      (makeSplitset st n).validation.Disjoint (makeSplitset st n).train := by
  have h := makeSplitset_nodup_append st n
  rw [List.append_assoc, List.nodup_append] at h
  obtain ⟨-, hvt, htvt⟩ := h
  rw [List.disjoint_append_right] at htvt
  exact ⟨htvt, (List.nodup_append.mp hvt).2.2⟩

theorem makeSplitset_train_nodup (st : Stratifier) (n : ℕ) :
    (makeSplitset st n).train.Nodup := by
  have h := makeSplitset_nodup_append st n
  rw [List.append_assoc, List.nodup_append] at h
  exact (List.nodup_append.mp h.2.1).2.1

theorem makeSplitset_perm_range (st : Stratifier) (n : ℕ) :
    List.Perm ((makeSplitset st n).test ++ (makeSplitset st n).validation ++ (makeSplitset st n).train)
      (List.range n) := by
  rw [makeSplitset_append]
  exact sampleOrder_perm st.seed n

theorem foldStart_succ (t k i : ℕ) : foldStart t k (i + 1) = foldStart t k i + foldSize t k i := by
  unfold foldStart foldSize
  rcases Nat.lt_or_ge i (t % k) with h | h
  · have h1 : min i (t % k) = i := Nat.min_eq_left (Nat.le_of_lt h)
    have h2 : min (i + 1) (t % k) = i + 1 := Nat.min_eq_left h
    simp only [h1, h2, if_pos h]
    ring
  · have h1 : min i (t % k) = t % k := Nat.min_eq_right h
    have h2 : min (i + 1) (t % k) = t % k := Nat.min_eq_right (Nat.le_succ_of_le h)
    simp only [h1, h2, if_neg (Nat.not_lt.mpr h)]
    ring

theorem foldStart_mono (t k : ℕ) {i j : ℕ} (h : i ≤ j) : foldStart t k i ≤ foldStart t k j := by
  unfold foldStart
  exact Nat.add_le_add (Nat.mul_le_mul_right _ h) (min_le_min h le_rfl)

theorem foldStart_self (t k : ℕ) (hk : 0 < k) : foldStart t k k = t := by
  unfold foldStart
  rw [Nat.min_eq_right (Nat.le_of_lt (Nat.mod_lt t hk))]
  exact Nat.div_add_mod t k

/-- The consecutive fold-evaluation slices of any list, joined in fold order,
reconstitute a prefix of the list whose length is the next fold's offset. -/
theorem foldEval_join_take (l : List ℕ) (k : ℕ) :
    ∀ m : ℕ,
      ((List.range m).map (fun i => foldEval l k i)).flatten = l.take (foldStart l.length k m)
  | 0 => by simp [foldStart]
  | m + 1 => by
    rw [List.range_succ, List.map_append, List.flatten_append, foldEval_join_take l k m]
    simp only [List.map_cons, List.map_nil, List.flatten_cons, List.flatten_nil,
      List.append_nil, foldEval]
    rw [← List.take_add, ← foldStart_succ]

theorem foldEval_join (l : List ℕ) (k : ℕ) (hk : 0 < k) :
    ((List.range k).map (fun i => foldEval l k i)).flatten = l := by
  rw [foldEval_join_take l k k, foldStart_self l.length k hk, List.take_length]

theorem foldSlices_decomp (l : List ℕ) (k i : ℕ) :
    l = l.take (foldStart l.length k i) ++
        (foldEval l k i ++ l.drop (foldStart l.length k i + foldSize l.length k i)) := by
  conv_lhs => rw [← List.take_append_drop (foldStart l.length k i) l,
    ← List.take_append_drop (foldSize l.length k i) (l.drop (foldStart l.length k i))]
  rw [List.drop_drop]
  rfl

theorem foldTrain_foldEval_perm (l : List ℕ) (k i : ℕ) :
    List.Perm (foldTrain l k i ++ foldEval l k i) l := by
  unfold foldTrain
  rw [List.append_assoc]
  refine List.Perm.trans (List.Perm.append_left _ List.perm_append_comm) ?_
  exact (List.Perm.of_eq (foldSlices_decomp l k i)).symm

theorem foldTrain_foldEval_disjoint (l : List ℕ) (k i : ℕ) (h : l.Nodup) :
    (foldTrain l k i).Disjoint (foldEval l k i) := by
  have hnd : (foldTrain l k i ++ foldEval l k i).Nodup :=
    ((foldTrain_foldEval_perm l k i).nodup_iff).mpr h
  exact (List.nodup_append.mp hnd).2.2

theorem foldEval_subset (l : List ℕ) (k i : ℕ) : foldEval l k i ⊆ l :=
  fun _ hx => List.drop_subset _ _ (List.take_subset _ _ hx)

theorem foldTrain_subset (l : List ℕ) (k i : ℕ) : foldTrain l k i ⊆ l := by
  intro x hx
  rcases List.mem_append.mp hx with h | h
  · exact List.take_subset _ _ h
  · exact List.drop_subset _ _ h

theorem foldEval_length (l : List ℕ) (k i : ℕ) (hk : 0 < k) (hik : i < k) :
    (foldEval l k i).length = foldSize l.length k i := by
  unfold foldEval
  rw [List.length_take, List.length_drop]
  have hfit : foldStart l.length k i + foldSize l.length k i ≤ l.length := by
    rw [← foldStart_succ]
    calc foldStart l.length k (i + 1) ≤ foldStart l.length k k := foldStart_mono _ _ hik
      _ = l.length := foldStart_self _ _ hk
  omega

theorem validatePipeline_error_of_bad (cfg : PipelineCfg)
    (h : badIncludeExclude cfg = true ∨ badEncoderFilter cfg = true ∨
      badEmptySplit cfg = true ∨ badFoldCount cfg = true ∨ badBucket cfg = true) :
    ∃ msg, validatePipeline cfg = .error (.configurationError msg) := by
  unfold validatePipeline
  split
  · exact ⟨_, rfl⟩
  split
  · exact ⟨_, rfl⟩
  split
  · exact ⟨_, rfl⟩
  split
  · exact ⟨_, rfl⟩
  split
  · exact ⟨_, rfl⟩
  simp_all

theorem buildPipeline_error {P : Type} (fit : List (List ℤ) → P)
    (transform : P → List ℤ → List ℤ) (cfg : PipelineCfg) (e : PipelineError)
    (h : validatePipeline cfg = .error e) :
    buildPipeline fit transform cfg = .error e := by
  unfold buildPipeline
  rw [h]

theorem buildPipeline_ok {P : Type} (fit : List (List ℤ) → P)
    (transform : P → List ℤ → List ℤ) (cfg : PipelineCfg)
    (h : validatePipeline cfg = .ok ()) :
    buildPipeline fit transform cfg = .ok (materialize fit transform cfg) := by
  unfold buildPipeline
  rw [h]

theorem materialize_splits {P : Type} (fit : List (List ℤ) → P)
    (transform : P → List ℤ → List ℤ) (cfg : PipelineCfg) :
    (materialize fit transform cfg).splits = pipelineSplits cfg := rfl

theorem materialize_warnings {P : Type} (fit : List (List ℤ) → P)
    (transform : P → List ℤ → List ℤ) (cfg : PipelineCfg) (k : ℕ)
    (hk : cfg.stratifier.foldCount = some k) :
    (materialize fit transform cfg).warnings = foldWarnings (trainLen cfg) k := by
  unfold materialize trainLen
  rw [hk]

theorem foldWarnings_nonempty (t k : ℕ) (h : ¬ t % k = 0) : foldWarnings t k ≠ [] := by
  unfold foldWarnings
  simp [h]

theorem countP_split {α : Type} (p : α → Bool) (l : List α) :
    l.countP p + l.countP (fun a => !p a) = l.length := by
  induction l with
  | nil => simp
  | cons a l ih =>
    by_cases h : p a = true <;> simp [List.countP_cons, h] <;> omega

theorem runJob_failed_iff (call : Job → Except String ℤ) (j : Job) :
    outcomeFailed (runJob call j) = callableFails call j := by
  unfold outcomeFailed runJob callableFails
  cases call j <;> rfl

theorem runJobs_fst (call : Job → Except String ℤ) (jobs : List Job) :
    (runJobs call jobs).map Prod.fst = jobs := by
  unfold runJobs
  rw [List.map_map]
  exact List.map_id _

theorem runJobs_countP_failed (call : Job → Except String ℤ) (jobs : List Job) :
    (runJobs call jobs).countP (fun e => outcomeFailed e.2) = jobs.countP (callableFails call) := by
  unfold runJobs
  rw [List.countP_map]
  apply List.countP_congr
  intro j _
  simp [Function.comp, runJob_failed_iff]

theorem hpCombos_length {V : Type} (space : List (String × List V)) :
    (hpCombos space).length = (space.map (fun p => p.2.length)).prod := by
  induction space with
  | nil => rfl
  | cons p rest ih =>
    obtain ⟨nm, vs⟩ := p
    simp only [hpCombos, List.length_flatMap, List.map_cons, List.prod_cons, ← ih]
    have hconst : List.map (List.length ∘ fun v => (hpCombos rest).map (fun c => (nm, v) :: c)) vs
        = List.map (fun _ => (hpCombos rest).length) vs := by
      apply List.map_congr_left
      intro v _
      simp
    rw [hconst, List.map_const', List.sum_replicate, smul_eq_mul]

theorem hpCombos_nodup {V : Type} (space : List (String × List V))
    (h : ∀ p ∈ space, p.2.Nodup) : (hpCombos space).Nodup := by
  induction space with
  | nil => simp [hpCombos]
  | cons p rest ih =>
    obtain ⟨nm, vs⟩ := p
    have hvs : vs.Nodup := h (nm, vs) (List.mem_cons_self _ _)
    have hrest : (hpCombos rest).Nodup := ih (fun q hq => h q (List.mem_cons_of_mem _ hq))
    unfold hpCombos
    rw [List.nodup_flatMap]
    constructor
    · intro v _
      refine hrest.map ?_
      intro c₁ c₂ hc
      exact (List.cons.injEq _ _ _ _ ▸ hc).2
    · refine hvs.imp ?_
      intro v₁ v₂ hne x hx₁ hx₂
      obtain ⟨c₁, -, hc₁⟩ := List.mem_map.mp hx₁
      obtain ⟨c₂, -, hc₂⟩ := List.mem_map.mp hx₂
      rw [← hc₂] at hc₁
      exact hne (congrArg Prod.snd (List.cons.injEq _ _ _ _ ▸ hc₁).1)

theorem foldIdxList_length (F : Option ℕ) : (foldIdxList F).length = F.getD 1 := by
  cases F <;> simp [foldIdxList]

theorem enumerateJobs_length (comboCount repeatCount : ℕ) (foldCount : Option ℕ) :
    (enumerateJobs comboCount foldCount repeatCount).length
      = comboCount * foldCount.getD 1 * repeatCount := by
  unfold enumerateJobs
  rw [List.length_flatMap]
  have hinner : ∀ c : ℕ,
      ((foldIdxList foldCount).flatMap (fun f =>
        (List.range repeatCount).map (fun r => Job.mk c f r))).length
        = foldCount.getD 1 * repeatCount := by
    intro c
    rw [List.length_flatMap]
    have : List.map (List.length ∘ fun f => (List.range repeatCount).map (fun r => Job.mk c f r))
        (foldIdxList foldCount) = List.map (fun _ => repeatCount) (foldIdxList foldCount) := by
      apply List.map_congr_left
      intro f _
      simp
    rw [this, List.map_const', List.sum_replicate, smul_eq_mul, foldIdxList_length]
  have : List.map (List.length ∘ fun c => (foldIdxList foldCount).flatMap (fun f =>
      (List.range repeatCount).map (fun r => Job.mk c f r))) (List.range comboCount)
      = List.map (fun _ => foldCount.getD 1 * repeatCount) (List.range comboCount) := by
    apply List.map_congr_left
    intro c _
    exact hinner c
  rw [this, List.map_const', List.sum_replicate, smul_eq_mul, List.length_range, mul_assoc]

theorem sampleCombos_length {α : Type} (seed k : ℕ) (l : List α) (h : k ≤ l.length) :
    (sampleCombos seed k l).length = k := by
  unfold sampleCombos
  rw [List.length_take, List.length_rotate]
  omega

theorem sampleCombos_nodup {α : Type} (seed k : ℕ) (l : List α) (h : l.Nodup) :
    (sampleCombos seed k l).Nodup := by
  unfold sampleCombos
  exact (List.take_sublist _ _).nodup (((List.rotate_perm l seed).nodup_iff).mpr h)

theorem makeSplitset_train_excl (st : Stratifier) (n : ℕ) :
    ∀ j ∈ (makeSplitset st n).train, j ∉ (makeSplitset st n).test ∧ j ∉ (makeSplitset st n).validation := by
  intro j hj
  obtain ⟨⟨htv, htt⟩, hvt⟩ := makeSplitset_disjoint st n
  exact ⟨fun h => htt h hj, fun h => hvt h hj⟩

/-- C1: for every pipeline configuration, each encoder step's fitted parameters
are a pure function of the train partition only (fold-train inside a fold):
fitting on two datasets whose gathered train partitions are equal yields
identical fitted parameters regardless of validation or test data, and the
fit-source indices never include validation, test, or fold-evaluation samples. -/
theorem encoder_fit_pure_function_of_train :
    (∀ (P : Type) (fit : List (List ℤ) → P) (rows₁ rows₂ : List (List ℤ))
        (ss₁ ss₂ : Splitset) (fp₁ fp₂ : Option (List ℕ × List ℕ)),
        gatherRows rows₁ (fitSourceIndices ss₁ fp₁) = gatherRows rows₂ (fitSourceIndices ss₂ fp₂) →
        fitEncoderStep fit rows₁ ss₁ fp₁ = fitEncoderStep fit rows₂ ss₂ fp₂)
    ∧ (∀ (st : Stratifier) (n : ℕ) (ss : Splitset), ss = makeSplitset st n →
        (∀ j ∈ fitSourceIndices ss none, j ∈ ss.train ∧ j ∉ ss.test ∧ j ∉ ss.validation)
        ∧ (∀ (k : ℕ) (fp : List ℕ × List ℕ), fp ∈ makeFolds ss.train k →
            ∀ j ∈ fitSourceIndices ss (some fp),
              j ∈ ss.train ∧ j ∉ ss.test ∧ j ∉ ss.validation ∧ j ∉ fp.2)) := by
  constructor
  · intro P fit rows₁ rows₂ ss₁ ss₂ fp₁ fp₂ h
    unfold fitEncoderStep
    rw [h]
  · intro st n ss hss
    subst hss
    constructor
    · intro j hj
      have hj' : j ∈ (makeSplitset st n).train := hj
      exact ⟨hj', makeSplitset_train_excl st n j hj'⟩
    · intro k fp hfp j hj
      obtain ⟨i, -, hfp'⟩ := List.mem_map.mp hfp
      have hj1 : j ∈ fp.1 := hj
      rw [← hfp'] at hj1 ⊢
      have hjt : j ∈ (makeSplitset st n).train := foldTrain_subset _ k i hj1
      have hdisj := foldTrain_foldEval_disjoint (makeSplitset st n).train k i
        (makeSplitset_train_nodup st n)
      exact ⟨hjt, (makeSplitset_train_excl st n j hjt).1,
        (makeSplitset_train_excl st n j hjt).2, fun h2 => hdisj hj1 h2⟩

theorem encoder_fit_pure_function_of_train_witness :
    fitEncoderStep (fun r => r) [[1], [2], [99]] ⟨[2], [], [0, 1]⟩ none
      = fitEncoderStep (fun r => r) [[1], [2], [77]] ⟨[2], [], [0, 1]⟩ none
    ∧ (0 ∈ (makeSplitset ⟨⟨0, 1⟩, ⟨0, 1⟩, none, 0⟩ 2).train
        ∧ 0 ∉ (makeSplitset ⟨⟨0, 1⟩, ⟨0, 1⟩, none, 0⟩ 2).test
        ∧ 0 ∉ (makeSplitset ⟨⟨0, 1⟩, ⟨0, 1⟩, none, 0⟩ 2).validation) := by
  constructor
  · exact encoder_fit_pure_function_of_train.1 _ (fun r => r) _ _ _ _ none none (by decide)
  · exact (encoder_fit_pure_function_of_train.2 ⟨⟨0, 1⟩, ⟨0, 1⟩, none, 0⟩ 2 _ rfl).1 0 (by decide)

/-- C2: for every valid stratifier configuration and sample count, the named
splits are pairwise disjoint and together cover the index set exactly once;
folds are carved from the train split only, their evaluation slices partition
the train split, and test/validation indices never appear in any fold. -/
theorem stratifier_split_partition :
    ∀ (st : Stratifier) (n : ℕ),
      st.sizeTest.valid → st.sizeValidation.valid →
      (∀ k, st.foldCount = some k → 2 ≤ k) →
      ∀ (ss : Splitset), ss = makeSplitset st n →
        (ss.test.Disjoint ss.validation ∧ ss.test.Disjoint ss.train
          ∧ ss.validation.Disjoint ss.train)
        ∧ List.Perm (ss.test ++ ss.validation ++ ss.train) (List.range n)
        ∧ (∀ k, st.foldCount = some k →
            ((makeFolds ss.train k).map Prod.snd).flatten = ss.train
            ∧ ∀ fp ∈ makeFolds ss.train k,
                fp.1.Disjoint fp.2
                ∧ List.Perm (fp.1 ++ fp.2) ss.train
                ∧ (∀ j, j ∈ fp.1 ∨ j ∈ fp.2 →
                    j ∈ ss.train ∧ j ∉ ss.test ∧ j ∉ ss.validation)) := by
  intro st n hT hV hfold ss hss
  subst hss
  obtain ⟨⟨htv, htt⟩, hvt⟩ := makeSplitset_disjoint st n
  refine ⟨⟨htv, htt, hvt⟩, makeSplitset_perm_range st n, ?_⟩
  intro k hk
  have hk0 : 0 < k := lt_of_lt_of_le Nat.zero_lt_two (hfold k hk)
  constructor
  · rw [makeFolds, List.map_map]
    exact foldEval_join (makeSplitset st n).train k hk0
  · intro fp hfp
    obtain ⟨i, -, hfp'⟩ := List.mem_map.mp hfp
    rw [← hfp']
    refine ⟨foldTrain_foldEval_disjoint _ k i (makeSplitset_train_nodup st n),
      foldTrain_foldEval_perm _ k i, ?_⟩
    intro j hj
    have hjt : j ∈ (makeSplitset st n).train := by
      rcases hj with h | h
      · exact foldTrain_subset _ k i h
      · exact foldEval_subset _ k i h
    exact ⟨hjt, makeSplitset_train_excl st n j hjt⟩

theorem stratifier_split_partition_witness :
    List.Perm ((makeSplitset ⟨⟨1, 4⟩, ⟨1, 5⟩, some 2, 3⟩ 10).test
        ++ (makeSplitset ⟨⟨1, 4⟩, ⟨1, 5⟩, some 2, 3⟩ 10).validation
        ++ (makeSplitset ⟨⟨1, 4⟩, ⟨1, 5⟩, some 2, 3⟩ 10).train)
      (List.range 10) :=
  (stratifier_split_partition ⟨⟨1, 4⟩, ⟨1, 5⟩, some 2, 3⟩ 10 (by decide) (by decide)
    (fun k hk => by injection hk with h; omega) _ rfl).2.1

/-- C3: any exception raised by a user-supplied callable is caught and recorded
against its own Job only: `run_jobs` returns a complete per-Job status report
(one entry per enumerated Job, in order, never an exception), the number of
failed entries equals the number of raising callables, the rest succeed, and a
Job's outcome depends only on its own callable result. -/
theorem job_failure_isolation :
    ∀ (call : Job → Except String ℤ) (jobs : List Job),
      ((runJobs call jobs).map Prod.fst = jobs)
      ∧ ((runJobs call jobs).countP (fun e => outcomeFailed e.2)
          = jobs.countP (callableFails call))
      ∧ ((runJobs call jobs).countP (fun e => !outcomeFailed e.2)
          = jobs.length - jobs.countP (callableFails call))
      ∧ (∀ (call₂ : Job → Except String ℤ) (j : Job),
          call j = call₂ j → runJob call j = runJob call₂ j) := by
  intro call jobs
  refine ⟨runJobs_fst call jobs, runJobs_countP_failed call jobs, ?_, ?_⟩
  · have hsplit := countP_split (fun e : Job × JobOutcome => outcomeFailed e.2) (runJobs call jobs)
    have hlen : (runJobs call jobs).length = jobs.length := by
      unfold runJobs
      exact List.length_map _ _
    rw [runJobs_countP_failed call jobs] at hsplit
    omega
  · intro call₂ j h
    unfold runJob
    rw [h]

theorem job_failure_isolation_witness :
    ((runJobs exCallable exJobs).map Prod.fst = exJobs)
    ∧ ((runJobs exCallable exJobs).countP (fun e => outcomeFailed e.2) = 1)
    ∧ ((runJobs exCallable exJobs).countP (fun e => !outcomeFailed e.2) = 7) := by
  obtain ⟨h1, h2, h3, -⟩ := job_failure_isolation exCallable exJobs
  refine ⟨h1, ?_, ?_⟩
  · rw [h2]
    decide
  · rw [h3]
    decide

/-- C4: hyperparameter expansion is the cross-product of the candidate lists,
so its size is the product of their lengths; the Queue enumerates
(number of combinations) × (fold count or 1) × repeat count Jobs; and sampling
`search_count = k` returns exactly `k` distinct combinations whenever at least
`k` distinct combinations exist. -/
theorem hyperparameter_expansion_counts :
    (∀ (V : Type) (space : List (String × List V)),
      (hpCombos space).length = (space.map (fun p => p.2.length)).prod)
    ∧ (∀ (V : Type) (space : List (String × List V)),
        (∀ p ∈ space, p.2.Nodup) → (hpCombos space).Nodup)
    ∧ (∀ (comboCount repeatCount : ℕ) (foldCount : Option ℕ),
        (enumerateJobs comboCount foldCount repeatCount).length
          = comboCount * foldCount.getD 1 * repeatCount)
    ∧ (∀ (V : Type) (seed k : ℕ) (combos : List (List (String × V))),
        k ≤ combos.length →
          (sampleCombos seed k combos).length = k
          ∧ (combos.Nodup → (sampleCombos seed k combos).Nodup)) := by
  refine ⟨fun V space => hpCombos_length space,
    fun V space h => hpCombos_nodup space h,
    fun c r F => enumerateJobs_length c r F, ?_⟩
  intro V seed k combos hk
  exact ⟨sampleCombos_length seed k combos hk, fun hn => sampleCombos_nodup seed k combos hn⟩

theorem hyperparameter_expansion_counts_witness :
    (hpCombos [("a", [1, 2]), ("b", [10, 20, 30])]).length = 6
    ∧ (hpCombos ([("a", [1, 2]), ("b", [10, 20, 30])] : List (String × List ℤ))).Nodup
    ∧ (enumerateJobs 6 (some 5) 2).length = 60
    ∧ (sampleCombos 1 3 (hpCombos [("b", ([10, 20, 30] : List ℤ))])).length = 3 := by
  obtain ⟨h1, h2, h3, h4⟩ := hyperparameter_expansion_counts
  refine ⟨(h1 ℤ [("a", [1, 2]), ("b", [10, 20, 30])]).trans (by decide),
    h2 ℤ [("a", [1, 2]), ("b", [10, 20, 30])] (by decide),
    (h3 6 2 (some 5)).trans (by decide), ?_⟩
  exact (h4 ℤ 1 3 (hpCombos [("b", [10, 20, 30])]) (by decide)).1

/-- C5: when the train sample count is not evenly divisible by the fold count,
the build still succeeds but surfaces a warning; the first `t % k` folds each
receive one extra evaluation sample, the remaining folds receive `t / k`, and
the fold-evaluation slices joined in order reconstitute the whole train split,
so no sample is dropped. -/
theorem fold_remainder_distribution :
    ∀ (cfg : PipelineCfg) (k : ℕ),
      cfg.stratifier.foldCount = some k →
      2 ≤ k →
      validatePipeline cfg = .ok () →
      ¬ (k ∣ trainLen cfg) →
      ∀ (P : Type) (fit : List (List ℤ) → P) (transform : P → List ℤ → List ℤ),
        ∃ r : Materialized P,
          buildPipeline fit transform cfg = .ok r
          ∧ r.warnings ≠ []
          ∧ (∀ i, i < k → (foldEval r.splits.train k i).length
              = trainLen cfg / k + (if i < trainLen cfg % k then 1 else 0))
          ∧ ((makeFolds r.splits.train k).map Prod.snd).flatten = r.splits.train := by
  intro cfg k hk hk2 hok hdvd P fit transform
  have hk0 : 0 < k := lt_of_lt_of_le Nat.zero_lt_two hk2
  refine ⟨materialize fit transform cfg, buildPipeline_ok fit transform cfg hok, ?_, ?_, ?_⟩
  · rw [materialize_warnings fit transform cfg k hk]
    exact foldWarnings_nonempty _ _ (fun h => hdvd (Nat.dvd_of_mod_eq_zero h))
  · intro i hik
    rw [materialize_splits]
    have := foldEval_length (pipelineSplits cfg).train k i hk0 hik
    rw [this]
    rfl
  · rw [materialize_splits, makeFolds, List.map_map]
    exact foldEval_join (pipelineSplits cfg).train k hk0

theorem fold_remainder_distribution_witness :
    ∃ r : Materialized Unit,
      buildPipeline (fun _ => ()) (fun _ row => row) exPipeline = .ok r
      ∧ r.warnings ≠ []
      ∧ (foldEval r.splits.train 2 0).length = 4 := by
  obtain ⟨r, h1, h2, h3, -⟩ :=
    fold_remainder_distribution exPipeline 2 rfl (by omega) rfl (by decide)
      Unit (fun _ => ()) (fun _ row => row)
  refine ⟨r, h1, h2, ?_⟩
  rw [h3 0 (by omega)]
  decide

/-- C6: Job enumeration is a fixed, stable function of the Queue configuration:
re-enumerating the Jobs of an unchanged configuration yields the same ordered
list of `(combo, fold, repeat)` identities. -/
theorem queue_enumeration_stable :
    ∀ (q₁ q₂ : QueueCfg), q₁ = q₂ →
      queueJobs q₁ = queueJobs q₂
      ∧ (queueJobs q₁).map (fun j => (j.comboIdx, j.foldIdx, j.repeatIdx))
          = (queueJobs q₂).map (fun j => (j.comboIdx, j.foldIdx, j.repeatIdx)) := by
  intro q₁ q₂ h
  subst h
  exact ⟨rfl, rfl⟩

theorem queue_enumeration_stable_witness :
    queueJobs ⟨[("a", [1, 2])], some 2, 3⟩ = queueJobs ⟨[("a", [1, 2])], some 2, 3⟩ :=
  (queue_enumeration_stable ⟨[("a", [1, 2])], some 2, 3⟩ ⟨[("a", [1, 2])], some 2, 3⟩ rfl).1

/-- C7: materialization is deterministic: two calls with identical
configuration (dataset, encoders, stratifier, seed) and the same encoder
functions produce the same Materialized value, hence bit-identical split
memberships and identical encoded tensors. -/
theorem materialize_deterministic :
    ∀ (P : Type) (fit : List (List ℤ) → P) (transform : P → List ℤ → List ℤ)
      (cfg₁ cfg₂ : PipelineCfg), cfg₁ = cfg₂ →
        materialize fit transform cfg₁ = materialize fit transform cfg₂
        ∧ (materialize fit transform cfg₁).splits = (materialize fit transform cfg₂).splits
        ∧ (materialize fit transform cfg₁).encodedTrain
            = (materialize fit transform cfg₂).encodedTrain
        ∧ (materialize fit transform cfg₁).encodedValidation
            = (materialize fit transform cfg₂).encodedValidation
        ∧ (materialize fit transform cfg₁).encodedTest
            = (materialize fit transform cfg₂).encodedTest
        ∧ (materialize fit transform cfg₁).foldTensors
            = (materialize fit transform cfg₂).foldTensors := by
  intro P fit transform cfg₁ cfg₂ h
  subst h
  exact ⟨rfl, rfl, rfl, rfl, rfl, rfl⟩

theorem materialize_deterministic_witness :
    (materialize (fun _ => ()) (fun _ row => row) exPipeline).splits
      = (materialize (fun _ => ()) (fun _ row => row) exPipeline).splits :=
  (materialize_deterministic Unit (fun _ => ()) (fun _ row => row)
    exPipeline exPipeline rfl).2.1

/-- C8: every configuration error — proportions producing an empty split, a
fold count exceeding the train sample count, a stratification bucket with fewer
than 2 samples for a requested fold count, mutually exclusive include/exclude
both given, or an encoder filter matching no columns — surfaces as a
`configurationError` synchronously at Pipeline-build time, before any data
materialization, and is always returned to the caller. -/
theorem configuration_errors_surfaced :
    ∀ (cfg : PipelineCfg),
      (badEmptySplit cfg = true ∨ badFoldCount cfg = true ∨ badBucket cfg = true ∨
        badIncludeExclude cfg = true ∨ badEncoderFilter cfg = true) →
      ∃ msg, validatePipeline cfg = .error (.configurationError msg)
        ∧ ∀ (P : Type) (fit : List (List ℤ) → P) (transform : P → List ℤ → List ℤ),
            buildPipeline fit transform cfg = .error (.configurationError msg) := by
  intro cfg h
  have h2 : badIncludeExclude cfg = true ∨ badEncoderFilter cfg = true ∨
      badEmptySplit cfg = true ∨ badFoldCount cfg = true ∨ badBucket cfg = true := by
    tauto
  obtain ⟨msg, hv⟩ := validatePipeline_error_of_bad cfg h2
  exact ⟨msg, hv, fun P fit transform => buildPipeline_error fit transform cfg _ hv⟩

theorem configuration_errors_surfaced_witness :
    ∃ msg, validatePipeline exBadPipeline = .error (.configurationError msg)
      ∧ buildPipeline (fun _ => ()) (fun _ row => row) exBadPipeline
          = .error (.configurationError msg) := by
  obtain ⟨msg, hv, hb⟩ :=
    configuration_errors_surfaced exBadPipeline (by right; right; right; left; decide)
  exact ⟨msg, hv, hb Unit (fun _ => ()) (fun _ row => row)⟩

/-- C9: when a supplied encoder step's options are incompatible with downstream
processing (sparse output, in-place copy), setup coerces them (dense output,
copy disabled), records an informational notice, and still prepares the encoder
without raising an error. -/
theorem encoder_option_coercion :
    ∀ (cols : List Column) (e : EncoderSpec),
      matchedColumns cols e ≠ [] →
      ∃ pe notices, setupEncoder cols e = .ok (pe, notices)
        ∧ pe.options.sparse = false
        ∧ pe.options.copy = false
        ∧ pe.matched = matchedColumns cols e
        ∧ ((e.options.sparse = true ∨ e.options.copy = true) → notices ≠ []) := by
  intro cols e hm
  have hne : ¬ ((matchedColumns cols e).isEmpty = true) := by
    simpa [List.isEmpty_iff] using hm
  unfold setupEncoder
  rw [if_neg hne]
  refine ⟨_, _, rfl, rfl, rfl, rfl, ?_⟩
  intro h
  unfold coerceOptions
  rcases h with h | h
  · simp [h]
  · cases hs : e.options.sparse <;> simp [h, hs]

theorem encoder_option_coercion_witness :
    ∃ pe notices,
      setupEncoder [{ name := "a", dtype := "float64" }]
          { options := { sparse := true, copy := true }, dtypes := ["float64"], columns := [] }
        = .ok (pe, notices)
      ∧ pe.options.sparse = false ∧ pe.options.copy = false ∧ notices ≠ [] := by
  obtain ⟨pe, notices, h1, h2, h3, -, h5⟩ :=
    encoder_option_coercion [{ name := "a", dtype := "float64" }]
      { options := { sparse := true, copy := true }, dtypes := ["float64"], columns := [] }
      (by decide)
  exact ⟨pe, notices, h1, h2, h3, h5 (Or.inl rfl)⟩

/-- C10: when an Input and the Target reference the same Dataset, the include
and exclude lists are adjusted so the Target's column is removed from the
Input's feature columns, and no materialized feature column index points at the
target column. -/
theorem target_column_never_in_features :
    ∀ (inp : Input) (tgt : Target),
      inp.dataset.id = tgt.dataset.id →
      tgt.column ∉ (featureColumns (adjustForTarget inp tgt)).map Column.name
      ∧ (∀ i ∈ featureColumnIdxs inp tgt, ∀ c, inp.dataset.columns[i]? = some c →
          c.name ≠ tgt.column) := by
  intro inp tgt hid
  have h1 : tgt.column ∉ (featureColumns (adjustForTarget inp tgt)).map Column.name := by
    unfold adjustForTarget
    rw [if_pos hid]
    cases hinc : inp.includeCols with
    | some incl =>
      simp only [featureColumns, List.mem_map, List.mem_filter, decide_eq_true_eq, bne_iff_ne]
      rintro ⟨c, ⟨-, -, hne⟩, hname⟩
      exact hne hname
    | none =>
      cases hexc : inp.excludeCols with
      | some excl =>
        simp only [featureColumns, List.mem_map, List.mem_filter, decide_eq_true_eq,
          List.mem_cons, not_or]
        rintro ⟨c, ⟨-, hne, -⟩, hname⟩
        exact hne hname
      | none =>
        simp only [featureColumns, List.mem_map, List.mem_filter, decide_eq_true_eq,
          List.mem_cons, List.not_mem_nil, or_false, not_or]
        rintro ⟨c, ⟨-, hne⟩, hname⟩
        exact hne hname
  refine ⟨h1, ?_⟩
  intro i hi c hci heq
  simp only [featureColumnIdxs, List.mem_filter] at hi
  have hp := hi.2
  rw [hci] at hp
  have hmem := of_decide_eq_true hp
  rw [heq] at hmem
  exact h1 hmem

theorem target_column_never_in_features_witness :
    "y" ∉ List.map Column.name (featureColumns (adjustForTarget
        { dataset := exDataset, includeCols := some ["x", "y"], excludeCols := none, encoders := [] }
        { dataset := exDataset, column := "y", encoder := { sparse := false, copy := false } })) :=
  (target_column_never_in_features
    { dataset := exDataset, includeCols := some ["x", "y"], excludeCols := none, encoders := [] }
    { dataset := exDataset, column := "y", encoder := { sparse := false, copy := false } } rfl).1

end AIQC
